import Mathlib

/-! Verification of the neptune sponge API (`src/sponge/api.rs`): the
`IOPattern` tag hasher and the generic sponge algorithm implemented on top of
the `InnerSpongeAPI` engine interface.  Machine integers (`u32`, `u128`) are
embedded as `Nat` with explicit reduction modulo `2 ^ 32` / `2 ^ 128` at each
wrapping operation, and every Rust `assert!` is embedded as an `Option`
failure (`none` models the abort). -/

namespace Neptune

/-- Modulus of wrapping `u32` arithmetic. -/
def U32 : Nat := 2 ^ 32

/-- Modulus of wrapping `u128` arithmetic. -/
def U128 : Nat := 2 ^ 128

/-- Rust `SpongeOp`: a tagged sum of absorb/squeeze with a `u32` count. -/
inductive SpongeOp where
  | Absorb (n : Nat)
  | Squeeze (n : Nat)
deriving DecidableEq

namespace SpongeOp

/-- Rust `SpongeOp::count`. -/
def count : SpongeOp → Nat
  | .Absorb n => n
  | .Squeeze n => n

/-- Rust `SpongeOp::is_absorb`. -/
def is_absorb : SpongeOp → Bool
  | .Absorb _ => true
  | .Squeeze _ => false

/-- Rust `SpongeOp::is_squeeze`. -/
def is_squeeze : SpongeOp → Bool
  | .Absorb _ => false
  | .Squeeze _ => true

/-- Rust `SpongeOp::matches`: `self.is_absorb() == other.is_absorb()`.  The
source name `matches` is a reserved Lean token, hence the Lean name. -/
def matchesKind (a b : SpongeOp) : Bool := a.is_absorb == b.is_absorb

/-- Rust `SpongeOp::combine`.  The `assert!(self.matches(other))` is embedded
as `none`; the `u32` addition `n + other.count()` reduces modulo `U32`. -/
def combine (a b : SpongeOp) : Option SpongeOp :=
  if a.matchesKind b then
    some (match a with
      | .Absorb n => .Absorb ((n + b.count) % U32)
      | .Squeeze n => .Squeeze ((n + b.count) % U32))
  else none

/-- Rust `SpongeOp::value`.  The `assert_eq!(0, n >> 31)` is embedded as
`none`; under the assert `n + (1 << 31)` cannot wrap in `u32`. -/
def value : SpongeOp → Option Nat
  | .Absorb n => if n >>> 31 = 0 then some (n + 2 ^ 31) else none
  | .Squeeze n => if n >>> 31 = 0 then some n else none

end SpongeOp

/-- Rust `HASHER_BASE = (0 - 159) as u128 = 2^128 - 159`. -/
def HASHER_BASE : Nat := U128 - 159

/-- Rust `Hasher`: the incremental tag hasher. -/
structure Hasher where
  x : Nat
  x_i : Nat
  state : Nat
  current_op : SpongeOp
deriving DecidableEq

namespace Hasher

/-- Rust `Hasher::new` / `Default::default`. -/
def new : Hasher :=
  { x := HASHER_BASE, x_i := 1, state := 0, current_op := .Absorb 0 }

/-- Rust `Hasher::update`: wrapping `u128` multiply/add. -/
def update (h : Hasher) (a : Nat) : Hasher :=
  let xi := h.x_i * h.x % U128
  { h with x_i := xi, state := (h.state + xi * a % U128) % U128 }

/-- Rust `Hasher::finish_op`: emit the pending op unless its count is zero.
The abort of `SpongeOp::value` propagates as `none`. -/
def finish_op (h : Hasher) : Option Hasher :=
  if h.current_op.count = 0 then some h
  else h.current_op.value.map h.update

/-- Rust `Hasher::update_op`: coalesce same-kind runs, otherwise finish the
current op and start a new run. -/
def update_op (h : Hasher) (op : SpongeOp) : Option Hasher :=
  if h.current_op.matchesKind op then
    (h.current_op.combine op).map fun c => { h with current_op := c }
  else
    h.finish_op.map fun h2 => { h2 with current_op := op }

/-- Rust `Hasher::finalize`: finish the pending op, then mix in the domain
separator. -/
def finalize (h : Hasher) (domain_separator : Nat) : Option Nat :=
  h.finish_op.map fun h2 => (h2.update domain_separator).state

end Hasher

/-- Rust `IOPattern`: an ordered list of sponge ops. -/
structure IOPattern where
  ops : List SpongeOp
deriving DecidableEq

/-- Rust `IOPattern::value`: run the tag hasher over the pattern. -/
def IOPattern.value (p : IOPattern) (domain_separator : Nat) : Option Nat := do
  let h ← p.ops.foldlM Hasher.update_op Hasher.new
  h.finalize domain_separator

/-- Rust `IOPattern::op_at`: `self.0.get(i)`. -/
def IOPattern.op_at (p : IOPattern) (i : Nat) : Option SpongeOp := p.ops.get? i

/-- Rust `Error`: the recoverable error returned by `finish`. -/
inductive Error where
  | ParameterUsageMismatch
deriving DecidableEq

section SpongeMachine

/-! The generic sponge algorithm of `impl SpongeAPI for S : InnerSpongeAPI`
(`src/sponge/api.rs` lines 193-259).  The engine (`InnerSpongeAPI`
implementor) is not under `src/`, so its primitive accessors are modelled from
the spec (sections 3, 4.2 and 4.4): the engine owns a rate region (embedded as
a total function from slot index to value, written only below `rate`), a
capacity region seeded from the tag by a backend-specific injective-per-tag
encoding (abstract `encodeCap`), position counters, the stored pattern, and
the `io_count` cursor.  The permutation is an abstract function on the full
state, and `perms` instruments how often it has been invoked. -/

variable {V C : Type}

/-- Engine-owned sponge state, per the spec data model (section 3), with a
`perms` instrumentation counter for the permutation-count properties. -/
structure SpongeState (V C : Type) where
  rateElems : Nat → V
  cap : C
  absorb_pos : Nat
  squeeze_pos : Nat
  pattern : IOPattern
  io_count : Nat
  perms : Nat

variable (rate : Nat) (zero : V) (add : V → V → V) (encodeCap : Nat → C)
variable (permuteFn : (Nat → V) → C → (Nat → V) × C)

/-- Modelled from the spec: engine `read_rate_element` returns a copy of rate
slot `offset` (spec section 4.2). -/
def read_rate_element (s : SpongeState V C) (offset : Nat) : V :=
  s.rateElems offset

/-- Modelled from the spec: engine `add_rate_element` writes its argument into
rate slot `offset`.  The generic `absorb` computes the mixed value
`add(old, element)` itself before writing (api.rs line 217), and
`initialize_state` zeroes the rate region by writing `zero` into each slot
(spec section 4.4, start step 4), so the write stores its argument. -/
def add_rate_element (offset : Nat) (x : V) (s : SpongeState V C) : SpongeState V C :=
  { s with rateElems := fun j => if j = offset then x else s.rateElems j }

/-- Modelled from the spec: engine `initialize_capacity` seeds the capacity
portion from the 128-bit tag via the backend-specific encoding (spec
section 4.2). -/
def initialize_capacity (tag : Nat) (s : SpongeState V C) : SpongeState V C :=
  { s with cap := encodeCap tag }

/-- Modelled from the spec: engine `permute` applies the fixed permutation to
the full state; the instrumentation counter records the invocation. -/
def permute (s : SpongeState V C) : SpongeState V C :=
  let rc := permuteFn s.rateElems s.cap
  { s with rateElems := rc.1, cap := rc.2, perms := s.perms + 1 }

/-- Modelled from the spec: engine `increment_io_count` returns the prior
`io_count`, then increments it by 1 (spec section 4.2). -/
def increment_io_count (s : SpongeState V C) : Nat × SpongeState V C :=
  (s.io_count, { s with io_count := s.io_count + 1 })

/-- Modelled from the spec: engine `set_pattern` stores the declared pattern;
`start` "resets all mutable state" and sets `io_count ← 0` (spec sections 3
and 4.4), and the engine-side cursor reset is part of that contract. -/
def set_pattern (p : IOPattern) (s : SpongeState V C) : SpongeState V C :=
  { s with pattern := p, io_count := 0 }

/-- Rust `InnerSpongeAPI::initialize_state` (api.rs lines 177-183): seed the
capacity from `p_value`, then write `zero` into every rate slot. -/
def initialize_state (p_value : Nat) (s : SpongeState V C) : SpongeState V C :=
  (List.range rate).foldl (fun t i => add_rate_element i zero t)
    (initialize_capacity encodeCap p_value s)

/-- Rust `SpongeAPI::start` (api.rs lines 197-205).  The tag computation can
abort (`IOPattern::value` propagates the `SpongeOp::value` assert), hence
`Option`. -/
def start (p : IOPattern) (domain_separator : Option Nat) (s : SpongeState V C) :
    Option (SpongeState V C) :=
  (p.value (domain_separator.getD 0)).map fun p_value =>
    let s1 := set_pattern p s
    let s2 := initialize_state rate zero encodeCap p_value s1
    { s2 with absorb_pos := 0, squeeze_pos := 0 }

/-- Body of the `for element in elements.iter()` loop of `SpongeAPI::absorb`
(api.rs lines 211-219). -/
def absorbStep (t : SpongeState V C) (element : V) : SpongeState V C :=
  let t1 := if t.absorb_pos = rate then
      { permute permuteFn t with absorb_pos := 0 }
    else t
  let old := read_rate_element t1 t1.absorb_pos
  let t2 := add_rate_element t1.absorb_pos (add old element) t1
  { t2 with absorb_pos := t2.absorb_pos + 1 }

/-- Rust `SpongeAPI::absorb` (api.rs lines 207-225).  The two `assert`s (slice
length, pattern entry) are embedded as `none`. -/
def absorb (length : Nat) (elements : List V) (s : SpongeState V C) :
    Option (SpongeState V C) :=
  if length = elements.length then
    let s1 := elements.foldl (absorbStep rate add permuteFn) s
    let oc := increment_io_count s1
    if oc.2.pattern.op_at oc.1 = some (SpongeOp.Absorb length) then
      some { oc.2 with squeeze_pos := rate }
    else none
  else none

/-- Head of each iteration of the `for _ in 0..length` loop of
`SpongeAPI::squeeze` (api.rs lines 233-237): permute and reset the positions
when `squeeze_pos` sits at the rate boundary. -/
def squeezeStepState (s : SpongeState V C) : SpongeState V C :=
  if s.squeeze_pos = rate then
    { permute permuteFn s with squeeze_pos := 0, absorb_pos := 0 }
  else s

/-- The `for _ in 0..length` loop of `SpongeAPI::squeeze` (api.rs lines
232-240), accumulating the output buffer: at each iteration the boundary
check runs, the element at `squeeze_pos` is pushed, and `squeeze_pos`
advances. -/
def squeezeLoop : Nat → SpongeState V C → List V → SpongeState V C × List V
  | 0, s, out => (s, out)
  | n + 1, s, out =>
    squeezeLoop n
      { squeezeStepState rate permuteFn s with
        squeeze_pos := (squeezeStepState rate permuteFn s).squeeze_pos + 1 }
      (out ++ [read_rate_element (squeezeStepState rate permuteFn s)
        (squeezeStepState rate permuteFn s).squeeze_pos])

/-- Rust `SpongeAPI::squeeze` (api.rs lines 227-246).  The pattern assert is
embedded as `none`. -/
def squeeze (length : Nat) (s : SpongeState V C) :
    Option (SpongeState V C × List V) :=
  let so := squeezeLoop rate permuteFn length s []
  let oc := increment_io_count so.1
  if oc.2.pattern.op_at oc.1 = some (SpongeOp.Squeeze length) then
    some (oc.2, so.2)
  else none

/-- Rust `SpongeAPI::finish` (api.rs lines 248-258): scrub the state with tag
0, then check that the pattern was fully consumed. -/
def finish (s : SpongeState V C) : Except Error Unit × SpongeState V C :=
  let s1 := initialize_state rate zero encodeCap 0 s
  let oc := increment_io_count s1
  if oc.1 = oc.2.pattern.ops.length then (Except.ok (), oc.2)
  else (Except.error Error.ParameterUsageMismatch, oc.2)

end SpongeMachine

/-- Same-kind combination with untruncated `Nat` sum, the idealization of
`SpongeOp::combine` used to describe coalesced runs. -/
def combineTotal (a b : SpongeOp) : SpongeOp :=
  match a with
  | .Absorb n => .Absorb (n + b.count)
  | .Squeeze n => .Squeeze (n + b.count)

/-- Decomposition of `cur :: l` into maximal same-kind runs with untruncated
summed counts, mirroring the traversal of `Hasher::update_op`.  Used to state
the amended claim C8: the tag hasher is total on patterns whose coalesced
runs stay below `2 ^ 31`. -/
def coalesceAux (cur : SpongeOp) : List SpongeOp → List SpongeOp
  | [] => [cur]
  | op :: rest =>
    if cur.matchesKind op then coalesceAux (combineTotal cur op) rest
    else cur :: coalesceAux op rest

/-- Identity permutation on a `Nat`-valued engine state, for concrete
witnesses. -/
def idPerm : (Nat → Nat) → Nat → (Nat → Nat) × Nat := fun r c => (r, c)

/-- Identity capacity encoding on a `Nat`-valued engine, for concrete
witnesses. -/
def idCap : Nat → Nat := fun t => t

/-- Concrete sponge state for witnesses: declared pattern `[Absorb 1]`, fresh
cursor, rate positions 0. -/
def wStateAbsorb1 : SpongeState Nat Nat :=
  { rateElems := fun _ => 0, cap := 0, absorb_pos := 0, squeeze_pos := 0,
    pattern := ⟨[.Absorb 1]⟩, io_count := 0, perms := 0 }

/-- Concrete sponge state for witnesses: declared pattern `[Squeeze 3]`,
`squeeze_pos` at the rate boundary 2 (as after an absorb with rate 2). -/
def wStateSqueeze3 : SpongeState Nat Nat :=
  { rateElems := fun _ => 0, cap := 0, absorb_pos := 0, squeeze_pos := 2,
    pattern := ⟨[.Squeeze 3]⟩, io_count := 0, perms := 0 }

/-- Concrete sponge state for witnesses: declared pattern `[Absorb 0]`, fresh
cursor. -/
def wStateAbsorb0 : SpongeState Nat Nat :=
  { rateElems := fun _ => 0, cap := 0, absorb_pos := 0, squeeze_pos := 0,
    pattern := ⟨[.Absorb 0]⟩, io_count := 0, perms := 0 }

section Lemmas

variable {V C : Type}
variable (rate : Nat) (zero : V) (add : V → V → V) (encodeCap : Nat → C)
variable (permuteFn : (Nat → V) → C → (Nat → V) × C)

theorem absorbStep_preserves (t : SpongeState V C) (e : V) :
    (absorbStep rate add permuteFn t e).pattern = t.pattern ∧
    (absorbStep rate add permuteFn t e).io_count = t.io_count := by
  unfold absorbStep permute add_rate_element read_rate_element
  split <;> exact ⟨rfl, rfl⟩

theorem foldl_absorbStep_preserves (l : List V) (s : SpongeState V C) :
    (l.foldl (absorbStep rate add permuteFn) s).pattern = s.pattern ∧
    (l.foldl (absorbStep rate add permuteFn) s).io_count = s.io_count := by
  induction l generalizing s with
  | nil => exact ⟨rfl, rfl⟩
  | cons e l ih =>
    have h1 := absorbStep_preserves rate add permuteFn s e
    have h2 := ih (absorbStep rate add permuteFn s e)
    exact ⟨h2.1.trans h1.1, h2.2.trans h1.2⟩

theorem squeezeStepState_proj (s : SpongeState V C) :
    ((squeezeStepState rate permuteFn s).perms =
      if s.squeeze_pos = rate then s.perms + 1 else s.perms) ∧
    ((squeezeStepState rate permuteFn s).squeeze_pos =
      if s.squeeze_pos = rate then 0 else s.squeeze_pos) ∧
    (squeezeStepState rate permuteFn s).pattern = s.pattern ∧
    (squeezeStepState rate permuteFn s).io_count = s.io_count := by
  unfold squeezeStepState permute
  split
  · next h => simp [h]
  · next h => simp [h]

theorem squeezeLoop_preserves (n : Nat) (s : SpongeState V C) (out : List V) :
    (squeezeLoop rate permuteFn n s out).1.pattern = s.pattern ∧
    (squeezeLoop rate permuteFn n s out).1.io_count = s.io_count := by
  induction n generalizing s out with
  | zero => exact ⟨rfl, rfl⟩
  | succ n ih =>
    unfold squeezeLoop
    have hs := squeezeStepState_proj rate permuteFn s
    refine ⟨(ih _ _).1.trans ?_, (ih _ _).2.trans ?_⟩
    · show (squeezeStepState rate permuteFn s).pattern = s.pattern
      exact hs.2.2.1
    · show (squeezeStepState rate permuteFn s).io_count = s.io_count
      exact hs.2.2.2

theorem foldl_add_rate (n : Nat) (z : V) (s : SpongeState V C) :
    (List.range n).foldl (fun t i => add_rate_element i z t) s =
      { s with rateElems := fun j => if j < n then z else s.rateElems j } := by
  induction n generalizing s with
  | zero =>
    simp only [List.range_zero, List.foldl_nil]
    cases s with
    | mk re cap ap sp pat io pe =>
      simp only [SpongeState.mk.injEq, and_true, true_and]
      funext j
      simp
  | succ n ih =>
    rw [List.range_succ, List.foldl_append, ih]
    simp only [List.foldl_cons, List.foldl_nil, add_rate_element]
    cases s with
    | mk re cap ap sp pat io pe =>
      simp only [SpongeState.mk.injEq, and_true, true_and]
      funext j
      by_cases hj : j = n
      · subst hj; simp
      · by_cases hj2 : j < n
        · have hj3 : j < n + 1 := by omega
          simp [hj, hj2, hj3]
        · have hj3 : ¬ j < n + 1 := by omega
          simp [hj, hj2, hj3]

theorem initialize_state_eq (pv : Nat) (s : SpongeState V C) :
    initialize_state rate zero encodeCap pv s =
      { s with cap := encodeCap pv,
               rateElems := fun j => if j < rate then zero else s.rateElems j } := by
  unfold initialize_state initialize_capacity
  rw [foldl_add_rate]

end Lemmas

section Claims

variable {V C : Type}
variable (rate : Nat) (zero : V) (add : V → V → V) (encodeCap : Nat → C)
variable (permuteFn : (Nat → V) → C → (Nat → V) × C)

theorem absorb_none_iff (s : SpongeState V C) (n : Nat) (elements : List V)
    (hlen : elements.length = n) :
    absorb rate add permuteFn n elements s = none ↔
      ¬ s.pattern.op_at s.io_count = some (SpongeOp.Absorb n) := by
  subst hlen
  have hp := foldl_absorbStep_preserves rate add permuteFn elements s
  unfold absorb increment_io_count
  rw [if_pos rfl]
  simp only []
  rw [hp.1, hp.2]
  split
  · next h => simp [h]
  · next h => simp [h]

theorem squeeze_none_iff (s : SpongeState V C) (n : Nat) :
    squeeze rate permuteFn n s = none ↔
      ¬ s.pattern.op_at s.io_count = some (SpongeOp.Squeeze n) := by
  have hp := squeezeLoop_preserves rate permuteFn n s []
  unfold squeeze increment_io_count
  simp only []
  rw [hp.1, hp.2]
  split
  · next h => simp [h]
  · next h => simp [h]

theorem absorb_some_io_count (s s2 : SpongeState V C) (n : Nat) (elements : List V)
    (h : absorb rate add permuteFn n elements s = some s2) :
    s2.io_count = s.io_count + 1 := by
  have hp := foldl_absorbStep_preserves rate add permuteFn elements s
  unfold absorb increment_io_count at h
  split at h
  · simp only [] at h
    split at h
    · cases h
      show (elements.foldl (absorbStep rate add permuteFn) s).io_count + 1 =
        s.io_count + 1
      rw [hp.2]
    · cases h
  · cases h

theorem squeeze_some_io_count (s s2 : SpongeState V C) (n : Nat) (out : List V)
    (h : squeeze rate permuteFn n s = some (s2, out)) :
    s2.io_count = s.io_count + 1 := by
  have hp := squeezeLoop_preserves rate permuteFn n s []
  unfold squeeze increment_io_count at h
  simp only [] at h
  split at h
  · cases h
    show (squeezeLoop rate permuteFn n s []).1.io_count + 1 = s.io_count + 1
    rw [hp.2]
  · cases h

/-- Claim C1: for a runtime call `absorb(n, elements, acc)` with consistent
arguments, or `squeeze(n, acc)`, the call aborts exactly when the pattern
entry at index `io_count` is missing or differs from `Absorb(n)` resp.
`Squeeze(n)` by kind or count; in particular the engine never merges several
runtime calls to match one coalesced pattern entry. -/
theorem absorb_squeeze_abort_iff (s : SpongeState V C) (n : Nat) (elements : List V)
    (hlen : elements.length = n) :
    (absorb rate add permuteFn n elements s = none ↔
      ¬ s.pattern.op_at s.io_count = some (SpongeOp.Absorb n)) ∧
    (squeeze rate permuteFn n s = none ↔
      ¬ s.pattern.op_at s.io_count = some (SpongeOp.Squeeze n)) :=
  ⟨absorb_none_iff rate add permuteFn s n elements hlen,
    squeeze_none_iff rate permuteFn s n⟩

/-- Witness for C1 at a concrete sponge. -/
theorem absorb_squeeze_abort_iff_witness :
    ([(5 : Nat)].length = 1) ∧
    ((absorb 2 Nat.add idPerm 1 [5] wStateAbsorb1 = none ↔
      ¬ wStateAbsorb1.pattern.op_at wStateAbsorb1.io_count =
        some (SpongeOp.Absorb 1)) ∧
     (squeeze 2 idPerm 1 wStateAbsorb1 = none ↔
      ¬ wStateAbsorb1.pattern.op_at wStateAbsorb1.io_count =
        some (SpongeOp.Squeeze 1))) :=
  ⟨rfl, absorb_squeeze_abort_iff 2 Nat.add idPerm wStateAbsorb1 1 [5] rfl⟩

/-- Claim C2: `finish` succeeds exactly when the operation counter equals the
pattern length, and in both cases it first re-initializes the state with tag
0: capacity seeded from 0, every rate slot zeroed. -/
theorem finish_ok_iff_and_scrub (s : SpongeState V C) :
    ((finish rate zero encodeCap s).1 = Except.ok () ↔
      s.io_count = s.pattern.ops.length) ∧
    (∀ i, i < rate → (finish rate zero encodeCap s).2.rateElems i = zero) ∧
    (finish rate zero encodeCap s).2.cap = encodeCap 0 := by
  unfold finish increment_io_count
  rw [initialize_state_eq]
  simp only []
  refine ⟨?_, ?_, ?_⟩
  · split
    · next h => simpa using h
    · next h => simp [h]
  · intro i hi
    split <;> simp [hi]
  · split <;> rfl

/-- Witness for C2 at a concrete sponge. -/
theorem finish_ok_iff_and_scrub_witness :
    ((finish 2 0 idCap wStateAbsorb1).1 = Except.ok () ↔
      wStateAbsorb1.io_count = wStateAbsorb1.pattern.ops.length) ∧
    (∀ i, i < 2 → (finish 2 0 idCap wStateAbsorb1).2.rateElems i = 0) ∧
    (finish 2 0 idCap wStateAbsorb1).2.cap = idCap 0 :=
  finish_ok_iff_and_scrub 2 0 idCap wStateAbsorb1

/-- Claim C5: immediately after a successful `start(pattern,
domain_separator, acc)`, the sponge has `absorb_pos = 0`, `squeeze_pos = 0`,
`io_count = 0`, all rate slots zero, and the capacity encodes the tag of
`(pattern, domain_separator.unwrap_or(0))`. -/
theorem start_postcondition (s : SpongeState V C) (p : IOPattern) (d : Option Nat)
    (t : Nat) (h : p.value (d.getD 0) = some t) :
    ∃ s2, start rate zero encodeCap p d s = some s2 ∧
      s2.absorb_pos = 0 ∧ s2.squeeze_pos = 0 ∧ s2.io_count = 0 ∧
      (∀ i, i < rate → s2.rateElems i = zero) ∧ s2.cap = encodeCap t := by
  have hs : start rate zero encodeCap p d s = some
      { initialize_state rate zero encodeCap t (set_pattern p s) with
        absorb_pos := 0, squeeze_pos := 0 } := by
    unfold start
    rw [h]
    rfl
  rw [initialize_state_eq] at hs
  refine ⟨_, hs, rfl, rfl, rfl, ?_, rfl⟩
  intro i hi
  simp [hi]

/-- Witness for C5 at a concrete sponge and pattern. -/
theorem start_postcondition_witness :
    (IOPattern.value ⟨[.Absorb 2, .Squeeze 2]⟩ ((none : Option Nat).getD 0) =
      some 340282366920938463463374607090318361668) ∧
    ∃ s2, start 2 0 idCap ⟨[.Absorb 2, .Squeeze 2]⟩ none wStateAbsorb1 = some s2 ∧
      s2.absorb_pos = 0 ∧ s2.squeeze_pos = 0 ∧ s2.io_count = 0 ∧
      (∀ i, i < 2 → s2.rateElems i = 0) ∧
      s2.cap = idCap 340282366920938463463374607090318361668 :=
  ⟨by decide, start_postcondition 2 0 idCap wStateAbsorb1 ⟨[.Absorb 2, .Squeeze 2]⟩
    none 340282366920938463463374607090318361668 (by decide)⟩

/-- Claim C10: a call `absorb(length, elements, acc)` with
`elements.len() ≠ length` aborts on the leading length assertion, before any
sponge state is read or written, so no successor state is produced and the
sponge state is unchanged. -/
theorem absorb_length_mismatch_aborts (s : SpongeState V C) (length : Nat)
    (elements : List V) (h : length ≠ elements.length) :
    absorb rate add permuteFn length elements s = none := by
  unfold absorb
  rw [if_neg h]

/-- Witness for C10 at a concrete sponge. -/
theorem absorb_length_mismatch_aborts_witness :
    ((2 : Nat) ≠ [(5 : Nat)].length) ∧
    absorb 2 Nat.add idPerm 2 [5] wStateAbsorb1 = none :=
  ⟨by decide, absorb_length_mismatch_aborts 2 Nat.add idPerm wStateAbsorb1 2 [5]
    (by decide)⟩

/-- Claim C3: the tag function matches the concrete vectors of the source's
`test_tag_values` bit-exactly. -/
theorem tag_concrete_vectors :
    IOPattern.value ⟨[]⟩ 0 = some 0 ∧
    IOPattern.value ⟨[.Absorb 2, .Squeeze 2]⟩ 0 =
      some 340282366920938463463374607090318361668 ∧
    IOPattern.value ⟨[.Absorb 2, .Squeeze 2]⟩ 1 =
      some 340282366920938463463374607090314341989 ∧
    IOPattern.value ⟨[]⟩ 123 = some 340282366920938463463374607431768191899 := by
  decide

/-- Claim C4: splitting an op into two adjacent same-kind ops with the same
total count leaves the tag unchanged, for any domain separator and any split
with total below `2 ^ 31`; in particular the concrete four-op split of
`[Absorb 2, Squeeze 2]` tags identically. -/
theorem tag_coalesce :
    (∀ d a b : Nat, a + b < 2 ^ 31 →
      IOPattern.value ⟨[.Absorb a, .Absorb b]⟩ d =
        IOPattern.value ⟨[.Absorb (a + b)]⟩ d) ∧
    IOPattern.value ⟨[.Absorb 1, .Absorb 1, .Squeeze 1, .Squeeze 1]⟩ 0 =
      IOPattern.value ⟨[.Absorb 2, .Squeeze 2]⟩ 0 := by
  constructor
  · intro d a b hab
    have ha : a % U32 = a := Nat.mod_eq_of_lt (by unfold U32; omega)
    have hab2 : (a + b) % U32 = a + b := Nat.mod_eq_of_lt (by unfold U32; omega)
    simp [IOPattern.value, List.foldlM, Hasher.update_op, Hasher.new,
      SpongeOp.matchesKind, SpongeOp.is_absorb, SpongeOp.combine,
      SpongeOp.count, ha, hab2]
  · decide

/-- Witness for the universally quantified part of C4 at a concrete split. -/
theorem tag_coalesce_witness :
    (1 + 1 < 2 ^ 31) ∧
    IOPattern.value ⟨[.Absorb 1, .Absorb 1]⟩ 5 =
      IOPattern.value ⟨[.Absorb (1 + 1)]⟩ 5 :=
  ⟨by decide, tag_coalesce.1 5 1 1 (by decide)⟩

theorem squeezeLoop_perms (hrate : 0 < rate) :
    ∀ (n : Nat) (s : SpongeState V C) (out : List V), s.squeeze_pos ≤ rate →
      (squeezeLoop rate permuteFn n s out).1.perms =
        s.perms + ((n + s.squeeze_pos + rate - 1) / rate - 1) := by
  intro n
  induction n with
  | zero =>
    intro s out hq
    show s.perms = s.perms + ((0 + s.squeeze_pos + rate - 1) / rate - 1)
    rcases Nat.eq_zero_or_pos s.squeeze_pos with h0 | h0
    · rw [h0]
      have h1 : (0 + 0 + rate - 1) / rate = 0 := Nat.div_eq_of_lt (by omega)
      rw [h1]
      omega
    · have e : 0 + s.squeeze_pos + rate - 1 = s.squeeze_pos + rate - 1 := by omega
      rw [e]
      have h1 : (s.squeeze_pos + rate - 1) / rate = 1 :=
        Nat.div_eq_of_lt_le (by omega) (by omega)
      rw [h1]
      omega
  | succ n ih =>
    intro s out hq
    unfold squeezeLoop
    have hs := squeezeStepState_proj rate permuteFn s
    have hT1 : ({ squeezeStepState rate permuteFn s with
        squeeze_pos := (squeezeStepState rate permuteFn s).squeeze_pos + 1 } :
        SpongeState V C).squeeze_pos =
        (squeezeStepState rate permuteFn s).squeeze_pos + 1 := rfl
    have hT2 : ({ squeezeStepState rate permuteFn s with
        squeeze_pos := (squeezeStepState rate permuteFn s).squeeze_pos + 1 } :
        SpongeState V C).perms = (squeezeStepState rate permuteFn s).perms := rfl
    by_cases h : s.squeeze_pos = rate
    · have hq1 : (squeezeStepState rate permuteFn s).squeeze_pos = 0 := by
        rw [hs.2.1, if_pos h]
      have hp1 : (squeezeStepState rate permuteFn s).perms = s.perms + 1 := by
        rw [hs.1, if_pos h]
      rw [ih _ _ (by rw [hT1, hq1]; omega)]
      rw [hT2, hT1, hp1, hq1, h]
      have e1 : n + (0 + 1) + rate - 1 = n + rate := by omega
      have e2 : n + 1 + rate + rate - 1 = n + rate + rate := by omega
      rw [e1, e2]
      have d1 : (n + rate) / rate = n / rate + 1 := Nat.add_div_right n hrate
      have d2 : (n + rate + rate) / rate = (n + rate) / rate + 1 :=
        Nat.add_div_right _ hrate
      rw [d2, d1]
      generalize n / rate = m
      omega
    · have hq1 : (squeezeStepState rate permuteFn s).squeeze_pos =
          s.squeeze_pos := by
        rw [hs.2.1, if_neg h]
      have hp1 : (squeezeStepState rate permuteFn s).perms = s.perms := by
        rw [hs.1, if_neg h]
      rw [ih _ _ (by rw [hT1, hq1]; omega)]
      rw [hT2, hT1, hp1, hq1]
      have e : n + (s.squeeze_pos + 1) + rate - 1 =
          n + 1 + s.squeeze_pos + rate - 1 := by omega
      rw [e]

/-- Claim C6: immediately after any successful absorb `squeeze_pos = rate`,
and a squeeze of `k * rate + r` elements started at the rate boundary invokes
the permutation exactly `k + 1` times when `r > 0` and exactly `k` times when
`r = 0` (so squeezing after absorbing permutes before the first output). -/
theorem squeeze_permute_count (s : SpongeState V C) (k r : Nat) (hrate : 0 < rate)
    (hr : r < rate) (hq : s.squeeze_pos = rate) :
    (∀ (s2 : SpongeState V C) (n : Nat) (elements : List V) (s3 : SpongeState V C),
      absorb rate add permuteFn n elements s2 = some s3 → s3.squeeze_pos = rate) ∧
    (squeezeLoop rate permuteFn (k * rate + r) s []).1.perms =
      s.perms + (if r = 0 then k else k + 1) ∧
    (∀ (n : Nat) (s4 : SpongeState V C) (out : List V),
      squeeze rate permuteFn n s = some (s4, out) →
      s4.perms = (squeezeLoop rate permuteFn n s []).1.perms) := by
  refine ⟨?_, ?_, ?_⟩
  · intro s2 n elements s3 habs
    unfold absorb increment_io_count at habs
    split at habs
    · simp only [] at habs
      split at habs
      · cases habs
        rfl
      · exact absurd habs (by simp)
    · exact absurd habs (by simp)
  · rw [squeezeLoop_perms rate permuteFn hrate (k * rate + r) s [] (by omega), hq]
    by_cases hr0 : r = 0
    · subst hr0
      have e : k * rate + 0 + rate + rate - 1 = (rate + rate - 1) + k * rate := by
        omega
      rw [e, Nat.add_mul_div_right _ _ hrate]
      have h2 : (rate + rate - 1) / rate = 1 :=
        Nat.div_eq_of_lt_le (by omega) (by omega)
      rw [h2]
      simp
    · have e : k * rate + r + rate + rate - 1 = ((r - 1) + 2 * rate) + k * rate := by
        omega
      rw [e, Nat.add_mul_div_right _ _ hrate]
      have e2 : (r - 1) + 2 * rate = (r - 1) + rate * 2 := by omega
      rw [e2, Nat.add_mul_div_left _ _ hrate, Nat.div_eq_of_lt (by omega)]
      simp [hr0]
      omega
  · intro n s4 out hsq
    unfold squeeze increment_io_count at hsq
    simp only [] at hsq
    split at hsq
    · cases hsq
      rfl
    · exact absurd hsq (by simp)

/-- Witness for C6 at a concrete sponge: rate 2, squeezing 3 elements from
the rate boundary. -/
theorem squeeze_permute_count_witness :
    ((0 : Nat) < 2) ∧ ((1 : Nat) < 2) ∧ wStateSqueeze3.squeeze_pos = 2 ∧
    ((∀ (s2 : SpongeState Nat Nat) (n : Nat) (elements : List Nat)
        (s3 : SpongeState Nat Nat),
      absorb 2 Nat.add idPerm n elements s2 = some s3 → s3.squeeze_pos = 2) ∧
    (squeezeLoop 2 idPerm (1 * 2 + 1) wStateSqueeze3 []).1.perms =
      wStateSqueeze3.perms + (if 1 = 0 then 1 else 1 + 1) ∧
    (∀ (n : Nat) (s4 : SpongeState Nat Nat) (out : List Nat),
      squeeze 2 idPerm n wStateSqueeze3 = some (s4, out) →
      s4.perms = (squeezeLoop 2 idPerm n wStateSqueeze3 []).1.perms)) :=
  ⟨by decide, by decide, rfl,
    squeeze_permute_count 2 Nat.add idPerm wStateSqueeze3 1 1 (by decide) (by decide)
      rfl⟩

theorem hasher_update_inv (h : Hasher) (a : Nat) (hx : h.x = HASHER_BASE)
    (hxi : h.x_i % 2 = 1) :
    (h.update a).x = HASHER_BASE ∧ (h.update a).x_i % 2 = 1 := by
  unfold Hasher.update
  refine ⟨hx, ?_⟩
  show h.x_i * h.x % U128 % 2 = 1
  rw [Nat.mod_mod_of_dvd _ (by unfold U128; decide), Nat.mul_mod, hxi, hx]
  decide

theorem hasher_finish_op_inv (h h2 : Hasher) (hfo : h.finish_op = some h2)
    (hx : h.x = HASHER_BASE) (hxi : h.x_i % 2 = 1) :
    h2.x = HASHER_BASE ∧ h2.x_i % 2 = 1 := by
  unfold Hasher.finish_op at hfo
  split at hfo
  · cases hfo
    exact ⟨hx, hxi⟩
  · cases hv : h.current_op.value with
    | none => rw [hv] at hfo; cases hfo
    | some v =>
      rw [hv] at hfo
      cases hfo
      exact hasher_update_inv h v hx hxi

theorem hasher_update_op_inv (h h2 : Hasher) (op : SpongeOp)
    (hup : h.update_op op = some h2)
    (hx : h.x = HASHER_BASE) (hxi : h.x_i % 2 = 1) :
    h2.x = HASHER_BASE ∧ h2.x_i % 2 = 1 := by
  unfold Hasher.update_op at hup
  split at hup
  · cases hc : h.current_op.combine op with
    | none => rw [hc] at hup; cases hup
    | some c =>
      rw [hc] at hup
      cases hup
      exact ⟨hx, hxi⟩
  · cases hfo : h.finish_op with
    | none => rw [hfo] at hup; cases hup
    | some h3 =>
      rw [hfo] at hup
      cases hup
      exact hasher_finish_op_inv h h3 hfo hx hxi

theorem foldlM_update_op_inv (l : List SpongeOp) :
    ∀ (h h2 : Hasher), l.foldlM Hasher.update_op h = some h2 →
      h.x = HASHER_BASE ∧ h.x_i % 2 = 1 →
      h2.x = HASHER_BASE ∧ h2.x_i % 2 = 1 := by
  induction l with
  | nil =>
    intro h h2 hf hi
    cases hf
    exact hi
  | cons op l ih =>
    intro h h2 hf hi
    rw [List.foldlM_cons] at hf
    cases hu : h.update_op op with
    | none => rw [hu] at hf; cases hf
    | some h1 =>
      rw [hu] at hf
      exact ih h1 h2 hf (hasher_update_op_inv h h1 op hu hi.1 hi.2)

/-- Claim C7: for every pattern whose tag computation succeeds, distinct
32-bit domain separators yield distinct tags. -/
theorem tag_domain_separator_injective (p : IOPattern) (d1 d2 t1 t2 : Nat)
    (hd1 : d1 < U32) (hd2 : d2 < U32) (hne : d1 ≠ d2)
    (h1 : p.value d1 = some t1) (h2 : p.value d2 = some t2) : t1 ≠ t2 := by
  unfold IOPattern.value at h1 h2
  cases hf : p.ops.foldlM Hasher.update_op Hasher.new with
  | none =>
    rw [hf] at h1
    cases h1
  | some h =>
    rw [hf] at h1 h2
    simp only [Option.bind_eq_bind, Option.some_bind] at h1 h2
    have hinv : h.x = HASHER_BASE ∧ h.x_i % 2 = 1 :=
      foldlM_update_op_inv _ _ _ hf ⟨rfl, rfl⟩
    unfold Hasher.finalize at h1 h2
    cases hfo : h.finish_op with
    | none =>
      rw [hfo] at h1
      cases h1
    | some g =>
      rw [hfo] at h1 h2
      simp only [Option.map_some', Option.some.injEq] at h1 h2
      have ginv := hasher_finish_op_inv h g hfo hinv.1 hinv.2
      have hm : (g.x_i * g.x % U128) % 2 = 1 := by
        rw [Nat.mod_mod_of_dvd _ (by unfold U128; decide), Nat.mul_mod,
          ginv.2, ginv.1]
        decide
      intro hteq
      rw [← h1, ← h2] at hteq
      unfold Hasher.update at hteq
      simp only [] at hteq
      have hmodeq : Nat.ModEq U128
          (g.state + g.x_i * g.x % U128 * d1 % U128)
          (g.state + g.x_i * g.x % U128 * d2 % U128) := hteq
      have hc1 : Nat.ModEq U128 (g.x_i * g.x % U128 * d1 % U128)
          (g.x_i * g.x % U128 * d2 % U128) :=
        Nat.ModEq.add_left_cancel (Nat.ModEq.refl g.state) hmodeq
      have hc2 : Nat.ModEq U128 (g.x_i * g.x % U128 * d1)
          (g.x_i * g.x % U128 * d2) :=
        ((Nat.mod_modEq _ _).symm.trans hc1).trans (Nat.mod_modEq _ _)
      have hcop : (U128).gcd (g.x_i * g.x % U128) = 1 := by
        have hodd : Odd (g.x_i * g.x % U128) := Nat.odd_iff.mpr hm
        have : Nat.Coprime (g.x_i * g.x % U128) U128 :=
          Nat.Coprime.pow_right 128 (Nat.coprime_two_right.mpr hodd)
        exact Nat.Coprime.gcd_eq_one this.symm
      have hd : Nat.ModEq U128 d1 d2 :=
        Nat.ModEq.cancel_left_of_coprime hcop hc2
      have : d1 = d2 := by
        have e1 : d1 % U128 = d1 := Nat.mod_eq_of_lt (by unfold U32 U128 at *; omega)
        have e2 : d2 % U128 = d2 := Nat.mod_eq_of_lt (by unfold U32 U128 at *; omega)
        have := hd
        unfold Nat.ModEq at this
        rw [e1, e2] at this
        exact this
      exact hne this

/-- Witness for C7 at the concrete pattern `[Absorb 2, Squeeze 2]` with
domain separators 0 and 1. -/
theorem tag_domain_separator_injective_witness :
    ((0 : Nat) < U32) ∧ ((1 : Nat) < U32) ∧ ((0 : Nat) ≠ 1) ∧
    IOPattern.value ⟨[.Absorb 2, .Squeeze 2]⟩ 0 =
      some 340282366920938463463374607090318361668 ∧
    IOPattern.value ⟨[.Absorb 2, .Squeeze 2]⟩ 1 =
      some 340282366920938463463374607090314341989 ∧
    (340282366920938463463374607090318361668 : Nat) ≠
      340282366920938463463374607090314341989 :=
  ⟨by decide, by decide, by decide, by decide, by decide,
    tag_domain_separator_injective ⟨[.Absorb 2, .Squeeze 2]⟩ 0 1 _ _
      (by decide) (by decide) (by decide) (by decide) (by decide)⟩

theorem combineTotal_count (a b : SpongeOp) :
    (combineTotal a b).count = a.count + b.count := by
  cases a <;> rfl

theorem value_some_of_lt (op : SpongeOp) (hlt : op.count < 2 ^ 31) :
    ∃ v, op.value = some v := by
  cases op with
  | Absorb n =>
    have hs : n >>> 31 = 0 := by
      rw [Nat.shiftRight_eq_div_pow]
      exact Nat.div_eq_of_lt hlt
    exact ⟨n + 2 ^ 31, by simp [SpongeOp.value, hs]⟩
  | Squeeze n =>
    have hs : n >>> 31 = 0 := by
      rw [Nat.shiftRight_eq_div_pow]
      exact Nat.div_eq_of_lt hlt
    exact ⟨n, by simp [SpongeOp.value, hs]⟩

theorem finish_op_total (h : Hasher) (hcur : h.current_op.count < 2 ^ 31) :
    ∃ h3, h.finish_op = some h3 ∧ h3.current_op = h.current_op := by
  unfold Hasher.finish_op
  split
  · exact ⟨h, rfl, rfl⟩
  · obtain ⟨v, hv⟩ := value_some_of_lt h.current_op hcur
    rw [hv]
    exact ⟨h.update v, rfl, rfl⟩

theorem coalesceAux_head_ge (l : List SpongeOp) :
    ∀ cur : SpongeOp, ∃ e ∈ coalesceAux cur l, cur.count ≤ e.count := by
  induction l with
  | nil =>
    intro cur
    exact ⟨cur, by unfold coalesceAux; exact List.mem_singleton_self cur,
      Nat.le_refl _⟩
  | cons op rest ih =>
    intro cur
    unfold coalesceAux
    by_cases hm : cur.matchesKind op = true
    · rw [if_pos hm]
      obtain ⟨e, he, hle⟩ := ih (combineTotal cur op)
      exact ⟨e, he, le_trans (by rw [combineTotal_count]; omega) hle⟩
    · rw [if_neg hm]
      exact ⟨cur, List.mem_cons_self _ _, Nat.le_refl _⟩

theorem fold_ok (l : List SpongeOp) :
    ∀ h : Hasher,
      (∀ op ∈ coalesceAux h.current_op l, op.count < 2 ^ 31) →
      ∃ h2, l.foldlM Hasher.update_op h = some h2 ∧
        h2.current_op.count < 2 ^ 31 := by
  induction l with
  | nil =>
    intro h hb
    refine ⟨h, rfl, ?_⟩
    exact hb h.current_op (by unfold coalesceAux; exact List.mem_singleton_self _)
  | cons op rest ih =>
    intro h hb
    rw [List.foldlM_cons]
    by_cases hm : h.current_op.matchesKind op = true
    · have hco : coalesceAux h.current_op (op :: rest) =
          coalesceAux (combineTotal h.current_op op) rest := by
        simp only [coalesceAux]
        rw [if_pos hm]
      rw [hco] at hb
      obtain ⟨e, he, hle⟩ := coalesceAux_head_ge rest (combineTotal h.current_op op)
      have hlt : (combineTotal h.current_op op).count < 2 ^ 31 :=
        lt_of_le_of_lt hle (hb e he)
      have hmod : (h.current_op.count + op.count) % U32 =
          h.current_op.count + op.count := by
        rw [combineTotal_count] at hlt
        exact Nat.mod_eq_of_lt (by unfold U32; omega)
      have hstep : h.update_op op =
          some { h with current_op := combineTotal h.current_op op } := by
        unfold Hasher.update_op
        rw [if_pos hm]
        unfold SpongeOp.combine
        rw [if_pos hm]
        simp only [Option.map_some', Option.some.injEq]
        congr 1
        cases hc : h.current_op with
        | Absorb n =>
          rw [hc] at hmod
          simp only [SpongeOp.count] at hmod
          simp [combineTotal, SpongeOp.count, hmod]
        | Squeeze n =>
          rw [hc] at hmod
          simp only [SpongeOp.count] at hmod
          simp [combineTotal, SpongeOp.count, hmod]
      rw [hstep]
      simp only [Option.bind_eq_bind, Option.some_bind]
      exact ih { h with current_op := combineTotal h.current_op op } hb
    · have hco : coalesceAux h.current_op (op :: rest) =
          h.current_op :: coalesceAux op rest := by
        simp only [coalesceAux]
        rw [if_neg hm]
      rw [hco] at hb
      have hcur : h.current_op.count < 2 ^ 31 := hb _ (List.mem_cons_self _ _)
      obtain ⟨h3, hf3, hc3⟩ := finish_op_total h hcur
      have hstep : h.update_op op = some { h3 with current_op := op } := by
        unfold Hasher.update_op
        rw [if_neg hm, hf3]
        rfl
      rw [hstep]
      simp only [Option.bind_eq_bind, Option.some_bind]
      refine ih _ ?_
      intro o ho
      exact hb o (List.mem_cons_of_mem _ ho)

/-- Counterexample to claim C8 as stated: both entries of
`[Absorb (2^30), Absorb (2^30)]` obey the data-model invariant
`count < 2^31`, yet the tag hasher aborts: coalescing sums the two counts to
`2^31` before `SpongeOp::value` runs its 31-bit assertion. -/
theorem tag_aborts_within_entry_bound :
    (∀ op ∈ [SpongeOp.Absorb (2 ^ 30), SpongeOp.Absorb (2 ^ 30)],
      op.count < 2 ^ 31) ∧
    IOPattern.value ⟨[SpongeOp.Absorb (2 ^ 30), SpongeOp.Absorb (2 ^ 30)]⟩ 0 =
      none := by
  decide

/-- Claim C8 (amended): the tag hasher cannot fail and returns a 128-bit tag
on every pattern whose coalesced same-kind runs each total below `2 ^ 31`
(the per-entry bound alone is not enough, since coalescing sums counts before
the 31-bit check). -/
theorem tag_total_of_run_bounds (p : List SpongeOp) (d : Nat)
    (hb : ∀ op ∈ coalesceAux (SpongeOp.Absorb 0) p, op.count < 2 ^ 31) :
    ∃ t, IOPattern.value ⟨p⟩ d = some t ∧ t < U128 := by
  obtain ⟨h2, hf, hc⟩ := fold_ok p Hasher.new hb
  simp only [IOPattern.value]
  rw [hf]
  simp only [Option.bind_eq_bind, Option.some_bind]
  obtain ⟨h3, hf3, hc3⟩ := finish_op_total h2 hc
  unfold Hasher.finalize
  rw [hf3]
  simp only [Option.map_some', Option.some.injEq]
  refine ⟨(h3.update d).state, rfl, ?_⟩
  show (h3.state + h3.x_i * h3.x % U128 * d % U128) % U128 < U128
  exact Nat.mod_lt _ (by unfold U128; omega)

/-- Witness for the amended C8 at the concrete pattern `[Absorb 2, Squeeze 2]`. -/
theorem tag_total_of_run_bounds_witness :
    (∀ op ∈ coalesceAux (SpongeOp.Absorb 0)
        [SpongeOp.Absorb 2, SpongeOp.Squeeze 2], op.count < 2 ^ 31) ∧
    ∃ t, IOPattern.value ⟨[SpongeOp.Absorb 2, SpongeOp.Squeeze 2]⟩ 0 = some t ∧
      t < U128 :=
  ⟨by decide, tag_total_of_run_bounds [SpongeOp.Absorb 2, SpongeOp.Squeeze 2] 0
    (by decide)⟩

theorem update_op_cur_lt (h h1 : Hasher) (op : SpongeOp)
    (hop : op.count < U32) (hu : h.update_op op = some h1) :
    h1.current_op.count < U32 := by
  obtain ⟨x, xi, st, cur⟩ := h
  have hmod : ∀ a b : Nat, (a + b) % U32 < U32 :=
    fun a b => Nat.mod_lt _ (by unfold U32; omega)
  cases cur with
  | Absorb m =>
    cases op with
    | Absorb k =>
      simp [Hasher.update_op, SpongeOp.matchesKind, SpongeOp.is_absorb,
        SpongeOp.combine, SpongeOp.count] at hu
      rw [← hu]
      exact hmod m k
    | Squeeze k =>
      by_cases hm0 : m = 0
      · subst hm0
        simp [Hasher.update_op, SpongeOp.matchesKind, SpongeOp.is_absorb,
          Hasher.finish_op, SpongeOp.count] at hu
        rw [← hu]
        exact hop
      · by_cases hv : m >>> 31 = 0
        · simp [Hasher.update_op, SpongeOp.matchesKind, SpongeOp.is_absorb,
            Hasher.finish_op, SpongeOp.count, SpongeOp.value, hm0, hv] at hu
          rw [← hu]
          exact hop
        · simp [Hasher.update_op, SpongeOp.matchesKind, SpongeOp.is_absorb,
            Hasher.finish_op, SpongeOp.count, SpongeOp.value, hm0, hv] at hu
  | Squeeze m =>
    cases op with
    | Squeeze k =>
      simp [Hasher.update_op, SpongeOp.matchesKind, SpongeOp.is_absorb,
        SpongeOp.combine, SpongeOp.count] at hu
      rw [← hu]
      exact hmod m k
    | Absorb k =>
      by_cases hm0 : m = 0
      · subst hm0
        simp [Hasher.update_op, SpongeOp.matchesKind, SpongeOp.is_absorb,
          Hasher.finish_op, SpongeOp.count] at hu
        rw [← hu]
        exact hop
      · by_cases hv : m >>> 31 = 0
        · simp [Hasher.update_op, SpongeOp.matchesKind, SpongeOp.is_absorb,
            Hasher.finish_op, SpongeOp.count, SpongeOp.value, hm0, hv] at hu
          rw [← hu]
          exact hop
        · simp [Hasher.update_op, SpongeOp.matchesKind, SpongeOp.is_absorb,
            Hasher.finish_op, SpongeOp.count, SpongeOp.value, hm0, hv] at hu

theorem fold_cur_lt (l : List SpongeOp) :
    ∀ h h2 : Hasher, (∀ op ∈ l, op.count < U32) → h.current_op.count < U32 →
      l.foldlM Hasher.update_op h = some h2 → h2.current_op.count < U32 := by
  induction l with
  | nil =>
    intro h h2 _ hc hf
    cases hf
    exact hc
  | cons op rest ih =>
    intro h h2 hl hc hf
    rw [List.foldlM_cons] at hf
    cases hu : h.update_op op with
    | none =>
      rw [hu] at hf
      simp at hf
    | some h1 =>
      rw [hu] at hf
      simp only [Option.bind_eq_bind, Option.some_bind] at hf
      exact ih h1 h2 (fun o ho => hl o (List.mem_cons_of_mem _ ho))
        (update_op_cur_lt h h1 op (hl op (List.mem_cons_self _ _)) hu) hf

theorem update_op_zero_absorb (h : Hasher) (n : Nat) (hn : n < U32)
    (hc : h.current_op.count < U32) :
    (h.update_op (SpongeOp.Absorb 0) >>= fun h1 =>
      h1.update_op (SpongeOp.Absorb n)) = h.update_op (SpongeOp.Absorb n) := by
  obtain ⟨x, xi, st, cur⟩ := h
  cases cur with
  | Absorb m =>
    simp only [SpongeOp.count] at hc
    have hm : m % U32 = m := Nat.mod_eq_of_lt (by omega)
    simp [Hasher.update_op, SpongeOp.matchesKind, SpongeOp.is_absorb,
      SpongeOp.combine, SpongeOp.count, hm]
  | Squeeze m =>
    have hn2 : n % U32 = n := Nat.mod_eq_of_lt hn
    by_cases hm0 : m = 0
    · subst hm0
      simp [Hasher.update_op, SpongeOp.matchesKind, SpongeOp.is_absorb,
        SpongeOp.combine, SpongeOp.count, Hasher.finish_op, hn2]
    · by_cases hv : m >>> 31 = 0
      · simp [Hasher.update_op, SpongeOp.matchesKind, SpongeOp.is_absorb,
          SpongeOp.combine, SpongeOp.count, Hasher.finish_op, SpongeOp.value,
          hm0, hv, hn2]
      · simp [Hasher.update_op, SpongeOp.matchesKind, SpongeOp.is_absorb,
          SpongeOp.combine, SpongeOp.count, Hasher.finish_op, SpongeOp.value,
          hm0, hv]

theorem update_op_zero_squeeze (h : Hasher) (n : Nat) (hn : n < U32)
    (hc : h.current_op.count < U32) :
    (h.update_op (SpongeOp.Squeeze 0) >>= fun h1 =>
      h1.update_op (SpongeOp.Squeeze n)) = h.update_op (SpongeOp.Squeeze n) := by
  obtain ⟨x, xi, st, cur⟩ := h
  cases cur with
  | Squeeze m =>
    simp only [SpongeOp.count] at hc
    have hm : m % U32 = m := Nat.mod_eq_of_lt (by omega)
    simp [Hasher.update_op, SpongeOp.matchesKind, SpongeOp.is_absorb,
      SpongeOp.combine, SpongeOp.count, hm]
  | Absorb m =>
    have hn2 : n % U32 = n := Nat.mod_eq_of_lt hn
    by_cases hm0 : m = 0
    · subst hm0
      simp [Hasher.update_op, SpongeOp.matchesKind, SpongeOp.is_absorb,
        SpongeOp.combine, SpongeOp.count, Hasher.finish_op, hn2]
    · by_cases hv : m >>> 31 = 0
      · simp [Hasher.update_op, SpongeOp.matchesKind, SpongeOp.is_absorb,
          SpongeOp.combine, SpongeOp.count, Hasher.finish_op, SpongeOp.value,
          hm0, hv, hn2]
      · simp [Hasher.update_op, SpongeOp.matchesKind, SpongeOp.is_absorb,
          SpongeOp.combine, SpongeOp.count, Hasher.finish_op, SpongeOp.value,
          hm0, hv]

theorem update_op_zero_finalize (h : Hasher) (z : SpongeOp) (hz : z.count = 0)
    (hc : h.current_op.count < U32) (d : Nat) :
    (h.update_op z >>= fun h1 => h1.finalize d) = h.finalize d := by
  obtain ⟨x, xi, st, cur⟩ := h
  cases z with
  | Absorb k =>
    simp only [SpongeOp.count] at hz
    subst hz
    cases cur with
    | Absorb m =>
      simp only [SpongeOp.count] at hc
      have hm : m % U32 = m := Nat.mod_eq_of_lt (by omega)
      simp [Hasher.update_op, SpongeOp.matchesKind, SpongeOp.is_absorb,
        SpongeOp.combine, SpongeOp.count, hm]
    | Squeeze m =>
      by_cases hm0 : m = 0
      · subst hm0
        simp [Hasher.update_op, SpongeOp.matchesKind, SpongeOp.is_absorb,
          SpongeOp.combine, SpongeOp.count, Hasher.finish_op, Hasher.finalize,
          Hasher.update]
      · by_cases hv : m >>> 31 = 0
        · simp [Hasher.update_op, SpongeOp.matchesKind, SpongeOp.is_absorb,
            SpongeOp.combine, SpongeOp.count, Hasher.finish_op, Hasher.finalize,
            SpongeOp.value, Hasher.update, hm0, hv]
        · simp [Hasher.update_op, SpongeOp.matchesKind, SpongeOp.is_absorb,
            SpongeOp.combine, SpongeOp.count, Hasher.finish_op, Hasher.finalize,
            SpongeOp.value, hm0, hv]
  | Squeeze k =>
    simp only [SpongeOp.count] at hz
    subst hz
    cases cur with
    | Squeeze m =>
      simp only [SpongeOp.count] at hc
      have hm : m % U32 = m := Nat.mod_eq_of_lt (by omega)
      simp [Hasher.update_op, SpongeOp.matchesKind, SpongeOp.is_absorb,
        SpongeOp.combine, SpongeOp.count, hm]
    | Absorb m =>
      by_cases hm0 : m = 0
      · subst hm0
        simp [Hasher.update_op, SpongeOp.matchesKind, SpongeOp.is_absorb,
          SpongeOp.combine, SpongeOp.count, Hasher.finish_op, Hasher.finalize,
          Hasher.update]
      · by_cases hv : m >>> 31 = 0
        · simp [Hasher.update_op, SpongeOp.matchesKind, SpongeOp.is_absorb,
            SpongeOp.combine, SpongeOp.count, Hasher.finish_op, Hasher.finalize,
            SpongeOp.value, Hasher.update, hm0, hv]
        · simp [Hasher.update_op, SpongeOp.matchesKind, SpongeOp.is_absorb,
            SpongeOp.combine, SpongeOp.count, Hasher.finish_op, Hasher.finalize,
            SpongeOp.value, hm0, hv]

theorem value_cons_zero_absorb (A B : List SpongeOp) (n d : Nat)
    (hA : ∀ op ∈ A, op.count < U32) (hn : n < U32) :
    IOPattern.value ⟨A ++ SpongeOp.Absorb 0 :: SpongeOp.Absorb n :: B⟩ d =
      IOPattern.value ⟨A ++ SpongeOp.Absorb n :: B⟩ d := by
  simp only [IOPattern.value]
  rw [List.foldlM_append, List.foldlM_append]
  cases hf : List.foldlM Hasher.update_op Hasher.new A with
  | none => simp
  | some h =>
    simp only [Option.bind_eq_bind, Option.some_bind]
    have hcur : h.current_op.count < U32 :=
      fold_cur_lt A Hasher.new h hA (by decide) hf
    have key : List.foldlM Hasher.update_op h
        (SpongeOp.Absorb 0 :: SpongeOp.Absorb n :: B) =
        List.foldlM Hasher.update_op h (SpongeOp.Absorb n :: B) := by
      simp only [List.foldlM_cons]
      conv_rhs => rw [← update_op_zero_absorb h n hn hcur]
      rw [bind_assoc]
    rw [key]

theorem value_cons_zero_squeeze (A B : List SpongeOp) (n d : Nat)
    (hA : ∀ op ∈ A, op.count < U32) (hn : n < U32) :
    IOPattern.value ⟨A ++ SpongeOp.Squeeze 0 :: SpongeOp.Squeeze n :: B⟩ d =
      IOPattern.value ⟨A ++ SpongeOp.Squeeze n :: B⟩ d := by
  simp only [IOPattern.value]
  rw [List.foldlM_append, List.foldlM_append]
  cases hf : List.foldlM Hasher.update_op Hasher.new A with
  | none => simp
  | some h =>
    simp only [Option.bind_eq_bind, Option.some_bind]
    have hcur : h.current_op.count < U32 :=
      fold_cur_lt A Hasher.new h hA (by decide) hf
    have key : List.foldlM Hasher.update_op h
        (SpongeOp.Squeeze 0 :: SpongeOp.Squeeze n :: B) =
        List.foldlM Hasher.update_op h (SpongeOp.Squeeze n :: B) := by
      simp only [List.foldlM_cons]
      conv_rhs => rw [← update_op_zero_squeeze h n hn hcur]
      rw [bind_assoc]
    rw [key]

theorem value_append_zero (A : List SpongeOp) (z : SpongeOp) (d : Nat)
    (hA : ∀ op ∈ A, op.count < U32) (hz : z.count = 0) :
    IOPattern.value ⟨A ++ [z]⟩ d = IOPattern.value ⟨A⟩ d := by
  simp only [IOPattern.value]
  rw [List.foldlM_append]
  cases hf : List.foldlM Hasher.update_op Hasher.new A with
  | none => simp
  | some h =>
    simp only [Option.bind_eq_bind, Option.some_bind]
    have hcur : h.current_op.count < U32 :=
      fold_cur_lt A Hasher.new h hA (by decide) hf
    simp only [List.foldlM_cons, List.foldlM_nil, bind_pure]
    exact update_op_zero_finalize h z hz hcur d

/-- Counterexample to claim C9 as stated: at this concrete input, inserting
the zero-count entry `Absorb 0` between the two `Squeeze 1` entries splits
their coalesced run and the pattern with the zero-count entry does NOT tag
identically to the same pattern without it (25122 versus `2 ^ 128 - 318`). -/
theorem zero_count_entry_changes_tag :
    ¬ (IOPattern.value
        ⟨[SpongeOp.Squeeze 1, SpongeOp.Absorb 0, SpongeOp.Squeeze 1]⟩ 0 =
      IOPattern.value ⟨[SpongeOp.Squeeze 1, SpongeOp.Squeeze 1]⟩ 0) := by
  decide

/-- Claim C9 (amended): a runtime call `absorb(0, [], acc)` or `squeeze(0,
acc)` consumes exactly one pattern entry, which must literally be `Absorb(0)`
resp. `Squeeze(0)` or the call aborts; zero-count entries are dropped at
emission and contribute no hash update of their own, and removing one
preserves the tag whenever it directly precedes a same-kind entry or stands
last in the pattern.  Removing a zero-count entry is NOT tag-preserving in
general — the counterexample exhibits a pattern where dropping it changes
the tag — so the original universal tag-identity fails, while each variant
still requires a different sequence of runtime calls. -/
theorem zero_count_ops (s : SpongeState V C) (A B : List SpongeOp) (n d : Nat)
    (hA : ∀ op ∈ A, op.count < U32) (hn : n < U32) :
    ((absorb rate add permuteFn 0 [] s).isSome = true ↔
      s.pattern.op_at s.io_count = some (SpongeOp.Absorb 0)) ∧
    (∀ s2, absorb rate add permuteFn 0 [] s = some s2 →
      s2.io_count = s.io_count + 1) ∧
    ((squeeze rate permuteFn 0 s).isSome = true ↔
      s.pattern.op_at s.io_count = some (SpongeOp.Squeeze 0)) ∧
    (∀ s2 out, squeeze rate permuteFn 0 s = some (s2, out) →
      s2.io_count = s.io_count + 1) ∧
    IOPattern.value ⟨A ++ SpongeOp.Absorb 0 :: SpongeOp.Absorb n :: B⟩ d =
      IOPattern.value ⟨A ++ SpongeOp.Absorb n :: B⟩ d ∧
    IOPattern.value ⟨A ++ SpongeOp.Squeeze 0 :: SpongeOp.Squeeze n :: B⟩ d =
      IOPattern.value ⟨A ++ SpongeOp.Squeeze n :: B⟩ d ∧
    (∀ z : SpongeOp, z.count = 0 →
      IOPattern.value ⟨A ++ [z]⟩ d = IOPattern.value ⟨A⟩ d) := by
  refine ⟨?_, fun s2 h => absorb_some_io_count rate add permuteFn s s2 0 [] h,
    ?_, fun s2 out h => squeeze_some_io_count rate permuteFn s s2 0 out h,
    value_cons_zero_absorb A B n d hA hn,
    value_cons_zero_squeeze A B n d hA hn,
    fun z hz => value_append_zero A z d hA hz⟩
  · rw [Option.isSome_iff_ne_none, Ne,
      absorb_none_iff rate add permuteFn s 0 [] rfl, not_not]
  · rw [Option.isSome_iff_ne_none, Ne,
      squeeze_none_iff rate permuteFn s 0, not_not]

/-- Witness for the amended C9 at a concrete sponge and pattern. -/
theorem zero_count_ops_witness :
    (∀ op ∈ [SpongeOp.Absorb 3], op.count < U32) ∧ ((2 : Nat) < U32) ∧
    (((absorb 2 Nat.add idPerm 0 [] wStateAbsorb0).isSome = true ↔
      wStateAbsorb0.pattern.op_at wStateAbsorb0.io_count =
        some (SpongeOp.Absorb 0)) ∧
    (∀ s2, absorb 2 Nat.add idPerm 0 [] wStateAbsorb0 = some s2 →
      s2.io_count = wStateAbsorb0.io_count + 1) ∧
    ((squeeze 2 idPerm 0 wStateAbsorb0).isSome = true ↔
      wStateAbsorb0.pattern.op_at wStateAbsorb0.io_count =
        some (SpongeOp.Squeeze 0)) ∧
    (∀ s2 out, squeeze 2 idPerm 0 wStateAbsorb0 = some (s2, out) →
      s2.io_count = wStateAbsorb0.io_count + 1) ∧
    IOPattern.value ⟨[SpongeOp.Absorb 3] ++
        SpongeOp.Absorb 0 :: SpongeOp.Absorb 2 :: [SpongeOp.Squeeze 1]⟩ 7 =
      IOPattern.value ⟨[SpongeOp.Absorb 3] ++
        SpongeOp.Absorb 2 :: [SpongeOp.Squeeze 1]⟩ 7 ∧
    IOPattern.value ⟨[SpongeOp.Absorb 3] ++
        SpongeOp.Squeeze 0 :: SpongeOp.Squeeze 2 :: [SpongeOp.Squeeze 1]⟩ 7 =
      IOPattern.value ⟨[SpongeOp.Absorb 3] ++
        SpongeOp.Squeeze 2 :: [SpongeOp.Squeeze 1]⟩ 7 ∧
    (∀ z : SpongeOp, z.count = 0 →
      IOPattern.value ⟨[SpongeOp.Absorb 3] ++ [z]⟩ 7 =
        IOPattern.value ⟨[SpongeOp.Absorb 3]⟩ 7)) :=
  ⟨by decide, by decide,
    zero_count_ops 2 Nat.add idPerm wStateAbsorb0 [SpongeOp.Absorb 3]
      [SpongeOp.Squeeze 1] 2 7 (by decide) (by decide)⟩

end Claims

end Neptune

